import Mathlib

/-!
Verification development for the pmd-usb-logger repository.

The repository talks to an ElmorLabs PMD-USB power-measurement device over a
serial link and decodes a continuous stream of fixed-length telemetry frames
into calibrated voltage/current samples.  This file shallowly embeds the
protocol constants, the ctypes structure layouts, the value-conversion
helpers, the streaming frame decoder and the baud-probing session logic of
the three source files (`pmd/__init__.py`, `pmd-usb-logger.py`, `main.py`)
and proves the specification claims about them.

Conventions: bytes are natural numbers (the serial library delivers byte
values 0..255); Python floats used by the conversion code are modelled as
exact rationals; Python runtime errors (IndexError on a too-short buffer,
TypeError) are modelled by `Option`.
-/

namespace PMDUSB

/-! ### Wire format catalog (src/pmd/__init__.py, lines 3-21) -/

def PMD_USB_WELCOME : ℕ := 0x00

def PMD_USB_READ_ID : ℕ := 0x01

def PMD_USB_READ_SENSORS : ℕ := 0x02

def PMD_USB_READ_CONFIG : ℕ := 0x04

def PMD_USB_WRITE_CONT_TX : ℕ := 0x07

def PMD_USB_WRITE_CONFIG_UART : ℕ := 0x08

def PMD_USB_MASK_NONE : ℕ := 0x00

def PMD_USB_MASK_ALL : ℕ := 0xff

def PMD_USB_TIMESTAMP_NONE : ℕ := 0x00

def PMD_USB_TIMESTAMP_FULL : ℕ := 0x04

/-- The fixed greeting sent in answer to the welcome query:
`PMD_USB_RESPONSE = b"ElmorLabs PMD-USB"` (src/pmd/__init__.py line 18),
as its list of byte values. -/
def PMD_USB_RESPONSE : List ℕ := ("ElmorLabs PMD-USB".toList.map Char.toNat)

/-! ### ctypes structure layout

The response structures are declared with `ctypes.Structure` and `_pack_`.
A field of size `s` and natural alignment `a` is placed at the current
offset rounded up to `min a pack`; the struct size is the final offset
rounded up to the struct alignment.  Fields are given as (size, alignment)
pairs. -/

def alignUp (off a : ℕ) : ℕ := (off + a - 1) / a * a

def structSize (pack : ℕ) (fields : List (ℕ × ℕ)) : ℕ :=
  let fin := fields.foldl
    (fun (acc : ℕ × ℕ) (f : ℕ × ℕ) =>
      let a := min f.2 pack
      (alignUp acc.1 a + f.1, max acc.2 a))
    (0, 1)
  alignUp fin.1 fin.2

/-- `DeviceIdStruct` (src/pmd/__init__.py lines 24-26): `_pack_ = 1`,
fields Vendor, Product, Firmware, all `c_uint8`. -/
def sizeof_DeviceIdStruct : ℕ := structSize 1 [(1, 1), (1, 1), (1, 1)]

/-- `ConfigStruct` (src/pmd/__init__.py lines 32-48): `_pack_ = 2`; fields
Version u8, Crc u16, AdcOffset i8×8, OledDisable u8, TimeoutCount u16,
TimeoutAction u8, OledSpeed u8, RestartAdcFlag u8, CalFlag u8,
UpdateConfigFlag u8, OledRotation u8, Averaging u8, rsvd u8×3. -/
def sizeof_ConfigStruct : ℕ :=
  structSize 2 [(1, 1), (2, 2), (8, 1), (1, 1), (2, 2), (1, 1), (1, 1),
    (1, 1), (1, 1), (1, 1), (1, 1), (1, 1), (3, 1)]

/-- `ConfigStructV5` (src/pmd/__init__.py lines 54-71): as `ConfigStruct`
with an extra AdcGainOffset i8×8 array before rsvd. -/
def sizeof_ConfigStructV5 : ℕ :=
  structSize 2 [(1, 1), (2, 2), (8, 1), (1, 1), (2, 2), (1, 1), (1, 1),
    (1, 1), (1, 1), (1, 1), (1, 1), (1, 1), (8, 1), (3, 1)]

/-- `ReadingStruct` (src/pmd/__init__.py lines 77-84): `_pack_ = 2`; fields
Name `c_char * 6`, Voltage u16, Current u16, Power u16. -/
def sizeof_ReadingStruct : ℕ := structSize 2 [(6, 1), (2, 2), (2, 2), (2, 2)]

/-- `SensorStruct` (src/pmd/__init__.py lines 90-94): `_pack_ = 2`; a single
array field `ReadingStruct * 4`. -/
def sizeof_SensorStruct : ℕ :=
  structSize 2 [(4 * sizeof_ReadingStruct, 2)]

/-! ### Timestamp configuration and frame length -/

/-- The spec's timestamp modes: the number of leading frame bytes that carry
the device clock.  `main.py` uses mode byte 0x00 (none) in
`continuous_data_rx` and 0x02 (short) in `continuous_data_rx_single`;
`pmd-usb-logger.py` uses `PMD_USB_TIMESTAMP_FULL = 0x04`. -/
inductive TimestampMode
  | none
  | short
  | full
deriving DecidableEq

def timestampBytes : TimestampMode → ℕ
  | .none => 0
  | .short => 2
  | .full => 4

/-- Number of set bits of an 8-bit channel mask. -/
def popcount (m : ℕ) : ℕ := ((List.range 8).filter (fun i => m.testBit i)).length

/-- The spec's frame length: `timestampBytes(mode) + 2 × popcount(mask)`. -/
def frameLength (mode : TimestampMode) (mask : ℕ) : ℕ :=
  timestampBytes mode + 2 * popcount mask

/-- `chunk_num_bytes = 4*2*2` (src/main.py line 147): all-channels stream
with no timestamp bytes (mode byte 0x00, mask 0xFF written at lines 132-133). -/
def chunk_num_bytes_allchan : ℕ := 4 * 2 * 2

/-- `chunk_num_bytes = 2 + 1*2*2` (src/main.py line 205): short timestamp
plus a single V/I channel pair (mode byte 0x02, mask 0x03 written at lines
188-189). -/
def chunk_num_bytes_single : ℕ := 2 + 1 * 2 * 2

/-- `chunk_num_bytes = timestamp_bytes + 2 * sum(8)` (src/pmd-usb-logger.py
line 211).  `sum(8)` applies Python's `sum` to a non-iterable `int`, which
raises `TypeError`, so the computation produces no value; it is modelled as
`Option.none`.  (The surrounding code intends 8 enabled channels with 4
timestamp bytes, i.e. 20.) -/
def chunk_num_bytes_logger : Option ℕ := Option.none

/-! ### Value conversion (src/pmd-usb-logger.py lines 40-51 and 252-346) -/

/-- `int8_from_adc` (src/pmd-usb-logger.py lines 40-44), on the 8-bit value:
`if value & 0x80: value -= 0x100`. -/
def int8_from_adc (value : ℕ) : ℤ :=
  if value &&& 0x80 ≠ 0 then (value : ℤ) - 0x100 else (value : ℤ)

/-- `int16_from_adc` (src/pmd-usb-logger.py lines 47-51), sign extension of
the 12-bit ADC code: `if value & 0x800: value -= 0x1000`. -/
def int16_from_adc (value : ℕ) : ℤ :=
  if value &&& 0x800 ≠ 0 then (value : ℤ) - 0x1000 else (value : ℤ)

/-- Scale factor used by channel index: even indices are voltages
(`* 0.007568`), odd indices currents (`* 0.0488`)
(src/pmd-usb-logger.py lines 252-346). -/
def channel_scale (i : ℕ) : ℚ := if i % 2 = 0 then 0.007568 else 0.0488

/-- The conversion applied to each 16-bit raw word in `continuous_data_rx`
(e.g. src/pmd-usb-logger.py lines 252-260):
`(int16_from_adc(word >> 4) + int8_from_adc(offset)) * scale`. -/
def convert_value (w off : ℕ) (scale : ℚ) : ℚ :=
  ((int16_from_adc (w >>> 4) + int8_from_adc off : ℤ) : ℚ) * scale

/-- Quantity kind of the spec's Value Conversion Engine. -/
inductive Kind
  | voltage
  | current
deriving DecidableEq

/-- Spec scale: Voltage → ×0.007568 (volts per LSB); Current → ×0.0488
(amps per LSB). -/
def scaleOf : Kind → ℚ
  | .voltage => 0.007568
  | .current => 0.0488

/-- Spec channel kind: even channel index = Voltage, odd = Current. -/
def kindOf (i : ℕ) : Kind := if i % 2 = 0 then .voltage else .current

/-- Spec sign extension of the 12-bit code: subtract 0x1000 when bit 11 is
set. -/
def signExtend12 (code : ℕ) : ℤ :=
  if code.testBit 11 then (code : ℤ) - 0x1000 else (code : ℤ)

/-- Spec sign extension of the 8-bit calibration offset: subtract 0x100 when
bit 7 is set. -/
def signExtend8 (off : ℕ) : ℤ :=
  if off.testBit 7 then (off : ℤ) - 0x100 else (off : ℤ)

/-- The spec's Value Conversion Engine:
`scale(kind) × (signExtend12(w >> 4) + signExtend8(o))`. -/
def specConvert (w off : ℕ) (k : Kind) : ℚ :=
  scaleOf k * ((signExtend12 (w >>> 4) + signExtend8 off : ℤ) : ℚ)

/-! ### Streaming frame decoder (src/pmd-usb-logger.py lines 188-367) -/

/-- One raw little-endian 16-bit word,
`rx_buffer[pos + 1] << 8 | rx_buffer[pos]`; reading past the end of the
buffer is a Python IndexError, modelled as `Option.none`. -/
def read_word (rx : List ℕ) (pos : ℕ) : Option ℕ :=
  match rx.get? (pos + 1), rx.get? pos with
  | some hi, some lo => some (hi <<< 8 ||| lo)
  | _, _ => Option.none

/-- Decode one channel value at byte position `pos` with calibration offset
`off` (src/pmd-usb-logger.py lines 252-260 and the analogous blocks). -/
def decode_channel (rx : List ℕ) (pos off : ℕ) (scale : ℚ) : Option ℚ :=
  (read_word rx pos).map (fun w => convert_value w off scale)

/-- Channels 1..7, decoded in fixed order after channel 0; channel `i` is
guarded by its `channel_settings` flag (modelled as mask bit `i`) and
consumes 2 bytes exactly when enabled (src/pmd-usb-logger.py
lines 263-346). -/
def decode_rest (mask : ℕ) (cal rx : List ℕ) : List ℕ → ℕ → Option (List (ℕ × ℚ) × ℕ)
  | [], pos => some ([], pos)
  | i :: is, pos =>
    if mask.testBit i then
      match decode_channel rx pos (cal.getD i 0) (channel_scale i) with
      | some v =>
        match decode_rest mask cal rx is (pos + 2) with
        | some r => some ((i, v) :: r.1, r.2)
        | Option.none => Option.none
      | Option.none => Option.none
    else
      decode_rest mask cal rx is pos

def rest_channels : List ℕ := [1, 2, 3, 4, 5, 6, 7]

/-- Decode the channel section of one frame, returning the decoded
(index, value) pairs in wire order together with the final buffer position.
Note the source decodes channel 0 (PCIE1 voltage, lines 252-261)
unconditionally — unlike channels 1..7 it has no mask guard. -/
def decode_frame (mask : ℕ) (cal : List ℕ) (ts_bytes : ℕ) (rx : List ℕ) :
    Option (List (ℕ × ℚ) × ℕ) :=
  match decode_channel rx ts_bytes (cal.getD 0 0) (channel_scale 0) with
  | some v0 =>
    match decode_rest mask cal rx rest_channels (ts_bytes + 2) with
    | some r => some ((0, v0) :: r.1, r.2)
    | Option.none => Option.none
  | Option.none => Option.none

/-- The device timestamp ticks, read from the leading frame bytes as a
little-endian unsigned integer.  Full mode:
`rx_buffer[3] << 24 | rx_buffer[2] << 16 | rx_buffer[1] << 8 | rx_buffer[0]`
(src/pmd-usb-logger.py lines 227-232); short mode:
`rx_buffer[1] << 8 | rx_buffer[0]` (src/main.py line 211); in mode `none`
the source reads no timestamp field, which the spec renders as the value 0. -/
def device_timestamp_raw : TimestampMode → List ℕ → Option ℕ
  | .none, _ => some 0
  | .short, rx =>
    match rx.get? 1, rx.get? 0 with
    | some b1, some b0 => some (b1 <<< 8 ||| b0)
    | _, _ => Option.none
  | .full, rx =>
    match rx.get? 3, rx.get? 2, rx.get? 1, rx.get? 0 with
    | some b3, some b2, some b1, some b0 =>
      some (b3 <<< 24 ||| b2 <<< 16 ||| b1 <<< 8 ||| b0)
    | _, _, _, _ => Option.none

/-- `device_clock_res = 3e6`: the 3 MHz device timer
(src/pmd-usb-logger.py line 191, src/main.py line 211). -/
def device_clock_res : ℚ := 3000000

/-- Device timestamp in seconds: raw ticks divided by the 3 MHz clock. -/
def device_timestamp_sec (mode : TimestampMode) (rx : List ℕ) : Option ℚ :=
  (device_timestamp_raw mode rx).map (fun t : ℕ => (t : ℚ) / device_clock_res)

/-- One decoded sample: device timestamp (seconds) and the decoded
(channel index, physical value) pairs in wire order.  The host-side
timestamp is taken from the wall clock at decode time and carries no
information about the frame bytes, so it is not modelled. -/
structure Sample where
  device_ts : ℚ
  values : List (ℕ × ℚ)
deriving DecidableEq

/-- Decode one complete frame into a sample. -/
def decode_sample (mask : ℕ) (cal : List ℕ) (mode : TimestampMode)
    (rx : List ℕ) : Option Sample :=
  match device_timestamp_sec mode rx, decode_frame mask cal (timestampBytes mode) rx with
  | some t, some r => some ⟨t, r.1⟩
  | _, _ => Option.none

/-! ### Accumulation buffer (src/pmd-usb-logger.py lines 209-224)

The RX loop extends `input_buffer` with every delivery and, while at least
`chunk_num_bytes` bytes are buffered, cuts the first `chunk_num_bytes`
bytes off the front and decodes them
(`rx_buffer = input_buffer[0:chunk_num_bytes]`,
`input_buffer = input_buffer[chunk_num_bytes:]`).  The recursion is driven
by a fuel counter bounded by the buffer length; each iteration removes
`L ≥ 1` bytes, so the fuel never runs out on the reachable calls. -/

def drainGo {α : Type} (L : ℕ) (f : List ℕ → α) : ℕ → List ℕ → List ℕ × List α
  | 0, buf => (buf, [])
  | fuel + 1, buf =>
    if 0 < L ∧ L ≤ buf.length then
      ((drainGo L f fuel (buf.drop L)).1,
        f (buf.take L) :: (drainGo L f fuel (buf.drop L)).2)
    else (buf, [])

/-- Extract and decode every complete frame from the buffer, returning the
leftover bytes and the decoded results in order. -/
def drain {α : Type} (L : ℕ) (f : List ℕ → α) (buf : List ℕ) : List ℕ × List α :=
  drainGo L f buf.length buf

/-- One pass of the RX loop body: append the newly delivered bytes to the
accumulation buffer, then extract all complete frames. -/
def ingest {α : Type} (L : ℕ) (f : List ℕ → α) (st chunk : List ℕ) :
    List ℕ × List α :=
  drain L f (st ++ chunk)

/-- Feed a sequence of read deliveries through the RX loop, collecting all
decoded results. -/
def ingestAll {α : Type} (L : ℕ) (f : List ℕ → α) (st : List ℕ) :
    List (List ℕ) → List ℕ × List α
  | [] => (st, [])
  | c :: cs =>
    ((ingestAll L f (ingest L f st c).1 cs).1,
      (ingest L f st c).2 ++ (ingestAll L f (ingest L f st c).1 cs).2)

/-! ### Calibration structure selection (src/pmd-usb-logger.py lines 118-149) -/

inductive ConfigVariant
  | legacy
  | extended
deriving DecidableEq

/-- `read_calibration` branches on the reported firmware version:
`if id_struct.Firmware < 6:` read a `ConfigStruct`, `else` read a
`ConfigStructV5` (src/pmd-usb-logger.py lines 133-145).  Every version takes
one of the two branches; there is no rejection path. -/
def select_config (fw : ℕ) : ConfigVariant :=
  if fw < 6 then .legacy else .extended

/-- Number of config bytes read for a firmware version. -/
def config_read_size (fw : ℕ) : ℕ :=
  match select_config fw with
  | .legacy => sizeof_ConfigStruct
  | .extended => sizeof_ConfigStructV5

/-! ### Connection check (src/pmd-usb-logger.py lines 83-103) -/

/-- `ser.read(18)` after the welcome query (line 91). -/
def welcome_read_len : ℕ := 18

/-- `ser.read(48)` after the read-sensors command (line 98). -/
def sensor_read_len : ℕ := 48

/-- `check_connection`, as a function of the bytes produced by its two
reads: the welcome response must equal `PMD_USB_RESPONSE` and the sensor
response must have exactly `sizeof(SensorStruct)` bytes. -/
def check_connection (welcome_rx sensor_rx : List ℕ) : Bool :=
  if welcome_rx ≠ PMD_USB_RESPONSE then false
  else if sensor_rx.length ≠ sizeof_SensorStruct then false
  else true

/-! ### Baud-rate probing (src/pmd-usb-logger.py lines 20, 400-423) -/

def supported_baudrates : List ℕ :=
  [115200, 230400, 460800, 921600, 1500000, 2000000]

/-- `for baudrate in reversed(sorted(supported_baudrates))` (line 403). -/
def probe_order : List ℕ :=
  (List.insertionSort (· ≤ ·) supported_baudrates).reverse

/-- Outcome of the `__main__` handshake: the baud rates attempted in order,
the selected rate (if any), and whether the session went on to read
calibration and start streaming. -/
structure SessionTrace where
  attempts : List ℕ
  selected : Option ℕ
  calibrated : Bool
  streaming : Bool
deriving DecidableEq

/-- The probing loop (lines 403-413): try each rate in order against the
device (abstracted as the oracle `ok`, i.e. whether `check_connection`
succeeds at that rate) and `break` on the first success. -/
def find_baud (ok : ℕ → Bool) : List ℕ → List ℕ × Option ℕ
  | [] => ([], Option.none)
  | r :: rs =>
    if ok r then ([r], some r)
    else (r :: (find_baud ok rs).1, (find_baud ok rs).2)

/-- The `__main__` control flow (lines 400-423): probe; if no rate worked,
`exit(-1)` before `read_calibration()` and `continuous_data_rx()`; otherwise
keep the successful rate and proceed to calibration and streaming. -/
def run_session (ok : ℕ → Bool) : SessionTrace :=
  match (find_baud ok probe_order).2 with
  | some r => ⟨(find_baud ok probe_order).1, some r, true, true⟩
  | Option.none => ⟨(find_baud ok probe_order).1, Option.none, false, false⟩

/-! ### Bit-level helper lemmas -/

theorem lor_eq_add_pow (k a : ℕ) {b : ℕ} (hb : b < 2 ^ k) :
    a * 2 ^ k ||| b = a * 2 ^ k + b := by
  rw [Nat.mul_comm]
  exact (Nat.mul_add_lt_is_or hb a).symm

theorem and_pow_ne_iff (n k : ℕ) : (n &&& 2 ^ k ≠ 0) ↔ n.testBit k = true := by
  rw [Nat.and_two_pow]
  cases h : n.testBit k with
  | false => simp
  | true => simp [(Nat.two_pow_pos k).ne' ]

theorem int16_from_adc_eq (c : ℕ) : int16_from_adc c = signExtend12 c := by
  unfold int16_from_adc signExtend12
  have h : (c &&& 0x800 ≠ 0) ↔ c.testBit 11 = true := by
    have h2 := and_pow_ne_iff c 11
    norm_num at h2
    exact h2
  by_cases hb : c.testBit 11 = true
  · rw [if_pos (h.mpr hb), if_pos hb]
  · rw [if_neg (fun hh => hb (h.mp hh)), if_neg hb]

theorem int8_from_adc_eq (o : ℕ) : int8_from_adc o = signExtend8 o := by
  unfold int8_from_adc signExtend8
  have h : (o &&& 0x80 ≠ 0) ↔ o.testBit 7 = true := by
    have h2 := and_pow_ne_iff o 7
    norm_num at h2
    exact h2
  by_cases hb : o.testBit 7 = true
  · rw [if_pos (h.mpr hb), if_pos hb]
  · rw [if_neg (fun hh => hb (h.mp hh)), if_neg hb]

theorem le2_bytes (b0 b1 : ℕ) (h0 : b0 < 256) : b1 <<< 8 ||| b0 = 256 * b1 + b0 := by
  rw [Nat.shiftLeft_eq]
  rw [lor_eq_add_pow 8 b1 (show b0 < 2 ^ 8 by norm_num; omega)]
  ring

theorem le4_bytes (b0 b1 b2 b3 : ℕ) (h0 : b0 < 256) (h1 : b1 < 256) (h2 : b2 < 256) :
    b3 <<< 24 ||| b2 <<< 16 ||| b1 <<< 8 ||| b0
      = 256 * (256 * (256 * b3 + b2) + b1) + b0 := by
  have e1 : b3 <<< 24 ||| b2 <<< 16 = b3 * 2 ^ 24 + b2 * 2 ^ 16 := by
    rw [Nat.shiftLeft_eq b3 24, Nat.shiftLeft_eq b2 16]
    exact lor_eq_add_pow 24 b3 (by norm_num; omega)
  have e2 : b3 * 2 ^ 24 + b2 * 2 ^ 16 = (b3 * 2 ^ 8 + b2) * 2 ^ 16 := by ring
  have e3 : (b3 * 2 ^ 8 + b2) * 2 ^ 16 ||| b1 <<< 8
      = (b3 * 2 ^ 8 + b2) * 2 ^ 16 + b1 * 2 ^ 8 := by
    rw [Nat.shiftLeft_eq b1 8]
    exact lor_eq_add_pow 16 _ (by norm_num; omega)
  have e4 : (b3 * 2 ^ 8 + b2) * 2 ^ 16 + b1 * 2 ^ 8
      = (b3 * 2 ^ 16 + b2 * 2 ^ 8 + b1) * 2 ^ 8 := by ring
  have e5 : (b3 * 2 ^ 16 + b2 * 2 ^ 8 + b1) * 2 ^ 8 ||| b0
      = (b3 * 2 ^ 16 + b2 * 2 ^ 8 + b1) * 2 ^ 8 + b0 := by
    exact lor_eq_add_pow 8 _ (by norm_num; omega)
  calc b3 <<< 24 ||| b2 <<< 16 ||| b1 <<< 8 ||| b0
      = (b3 * 2 ^ 8 + b2) * 2 ^ 16 ||| b1 <<< 8 ||| b0 := by rw [e1, e2]
    _ = (b3 * 2 ^ 16 + b2 * 2 ^ 8 + b1) * 2 ^ 8 ||| b0 := by rw [e3, e4]
    _ = (b3 * 2 ^ 16 + b2 * 2 ^ 8 + b1) * 2 ^ 8 + b0 := e5
    _ = 256 * (256 * (256 * b3 + b2) + b1) + b0 := by ring

/-- C1: the value conversion applied to each raw word agrees everywhere
with the spec formula `scale(kind) × (signExtend12(w >> 4) + signExtend8(o))`;
the even/odd channel scales are the Voltage/Current scales 0.007568 and
0.0488, and sign extension sends 0x7FF to 2047 and 0x800 to -2048.
Totality and determinism hold by construction: `convert_value` is a
function defined on all inputs. -/
theorem C1_value_conversion :
    (∀ (w off : ℕ) (k : Kind), convert_value w off (scaleOf k) = specConvert w off k)
      ∧ (∀ i : ℕ, channel_scale i = scaleOf (kindOf i))
      ∧ scaleOf Kind.voltage = 0.007568
      ∧ scaleOf Kind.current = 0.0488
      ∧ signExtend12 0x7FF = 2047
      ∧ signExtend12 0x800 = -2048
      ∧ (∀ o : ℕ, int8_from_adc o = signExtend8 o) := by
  refine ⟨?_, ?_, rfl, rfl, by decide, by decide, int8_from_adc_eq⟩
  · intro w off k
    unfold convert_value specConvert
    rw [int16_from_adc_eq, int8_from_adc_eq]
    ring
  · intro i
    unfold channel_scale kindOf scaleOf
    by_cases h : i % 2 = 0 <;> simp [h]

/-! ### Accumulation buffer lemmas -/

theorem drainGo_congr {α : Type} (L : ℕ) (f : List ℕ → α) :
    ∀ (fuel1 fuel2 : ℕ) (buf : List ℕ), buf.length ≤ fuel1 → buf.length ≤ fuel2 →
      drainGo L f fuel1 buf = drainGo L f fuel2 buf := by
  intro fuel1
  induction fuel1 with
  | zero =>
    intro fuel2 buf h1 h2
    have hb : buf = [] := List.eq_nil_of_length_eq_zero (Nat.le_zero.mp h1)
    subst hb
    cases fuel2 with
    | zero => rfl
    | succ m =>
      simp only [drainGo]
      rw [if_neg (by simp only [List.length_nil]; omega)]
  | succ n ih =>
    intro fuel2 buf h1 h2
    cases fuel2 with
    | zero =>
      have hb : buf = [] := List.eq_nil_of_length_eq_zero (Nat.le_zero.mp h2)
      subst hb
      simp only [drainGo]
      rw [if_neg (by simp only [List.length_nil]; omega)]
    | succ m =>
      simp only [drainGo]
      by_cases hc : 0 < L ∧ L ≤ buf.length
      · rw [if_pos hc, if_pos hc,
          ih m (buf.drop L) (by rw [List.length_drop]; omega) (by rw [List.length_drop]; omega)]
      · rw [if_neg hc, if_neg hc]

theorem drain_short {α : Type} {L : ℕ} (f : List ℕ → α) {buf : List ℕ}
    (h : buf.length < L) : drain L f buf = (buf, []) := by
  unfold drain
  cases hb : buf.length with
  | zero =>
    have : buf = [] := List.eq_nil_of_length_eq_zero hb
    subst this
    rfl
  | succ n =>
    simp only [drainGo]
    rw [if_neg (by omega)]

theorem drain_step {α : Type} {L : ℕ} (f : List ℕ → α) {buf : List ℕ}
    (hL : 0 < L) (h : L ≤ buf.length) :
    drain L f buf
      = ((drain L f (buf.drop L)).1, f (buf.take L) :: (drain L f (buf.drop L)).2) := by
  unfold drain
  cases hb : buf.length with
  | zero => omega
  | succ n =>
    simp only [drainGo]
    rw [if_pos ⟨hL, h⟩,
      drainGo_congr L f n (buf.drop L).length (buf.drop L)
        (by rw [List.length_drop]; omega) (le_refl _)]

theorem drain_append {α : Type} {L : ℕ} (f : List ℕ → α) (hL : 0 < L) :
    ∀ (n : ℕ) (buf extra : List ℕ), buf.length ≤ n →
      drain L f (buf ++ extra)
        = ((drain L f ((drain L f buf).1 ++ extra)).1,
           (drain L f buf).2 ++ (drain L f ((drain L f buf).1 ++ extra)).2) := by
  intro n
  induction n with
  | zero =>
    intro buf extra h
    have hb : buf = [] := List.eq_nil_of_length_eq_zero (Nat.le_zero.mp h)
    subst hb
    rw [List.nil_append,
      show drain L f ([] : List ℕ) = ([], []) from drain_short f (by simpa using hL)]
    simp
  | succ n ih =>
    intro buf extra h
    by_cases hlen : L ≤ buf.length
    · rw [drain_step f hL hlen,
        drain_step f hL (show L ≤ (buf ++ extra).length by rw [List.length_append]; omega),
        List.take_append_of_le_length hlen, List.drop_append_of_le_length hlen]
      have hih := ih (buf.drop L) extra (by rw [List.length_drop]; omega)
      rw [hih]
      simp
    · rw [show drain L f buf = (buf, []) from drain_short f (by omega)]
      simp

theorem drain_spec {α : Type} {L : ℕ} (f : List ℕ → α) (hL : 0 < L) :
    ∀ (n : ℕ) (buf : List ℕ), buf.length ≤ n →
      (drain L f buf).1 = buf.drop ((drain L f buf).2.length * L)
        ∧ (drain L f buf).2.length * L + (drain L f buf).1.length = buf.length
        ∧ (drain L f buf).1.length < L := by
  intro n
  induction n with
  | zero =>
    intro buf h
    have hb : buf = [] := List.eq_nil_of_length_eq_zero (Nat.le_zero.mp h)
    subst hb
    rw [show drain L f ([] : List ℕ) = ([], []) from drain_short f (by simpa using hL)]
    simpa using hL
  | succ n ih =>
    intro buf h
    by_cases hlen : L ≤ buf.length
    · rw [drain_step f hL hlen]
      obtain ⟨ih1, ih2, ih3⟩ := ih (buf.drop L) (by rw [List.length_drop]; omega)
      simp only [List.length_cons]
      refine ⟨?_, ?_, ih3⟩
      · rw [ih1, List.drop_drop]
        have he : L + (drain L f (buf.drop L)).2.length * L
            = ((drain L f (buf.drop L)).2.length + 1) * L := by ring
        rw [he]
      · rw [List.length_drop] at ih2
        have he : ((drain L f (buf.drop L)).2.length + 1) * L
            = (drain L f (buf.drop L)).2.length * L + L := by ring
        rw [he]
        omega
    · rw [drain_short f (by omega)]
      simpa using (by omega : buf.length < L)

theorem ingestAll_join {α : Type} {L : ℕ} (f : List ℕ → α) (hL : 0 < L) :
    ∀ (chunks : List (List ℕ)) (st : List ℕ), st.length < L →
      ingestAll L f st chunks = drain L f (st ++ chunks.flatten) := by
  intro chunks
  induction chunks with
  | nil =>
    intro st hst
    simp only [ingestAll, List.flatten_nil, List.append_nil]
    rw [drain_short f hst]
  | cons c cs ih =>
    intro st hst
    have hlft : ((drain L f (st ++ c)).1).length < L :=
      (drain_spec f hL (st ++ c).length (st ++ c) (le_refl _)).2.2
    simp only [ingestAll, ingest]
    rw [ih _ hlft, List.flatten_cons, ← List.append_assoc,
      drain_append f hL (st ++ c).length (st ++ c) cs.flatten (le_refl _)]

/-- C2: for a fixed channel mask, timestamp mode and calibration data (with
the carried-over decoder state shorter than one frame, as the ingest loop
guarantees), feeding byte chunks one call at a time yields exactly the same
decoded sample sequence and the same leftover buffer as feeding their
concatenation in one call; a partial frame followed by its remaining bytes
yields exactly one decoded sample; the leftover kept in the accumulation
buffer is exactly the not-yet-consumed tail, is shorter than one frame, and
every byte is consumed exactly once (sample count × frame length plus
leftover length equals the input length).  The hypothesis `0 < frameLength`
excludes only mask 0 with timestamp mode none, where the source's inner
`while` loop would spin forever. -/
theorem C2_chunk_independence (mask : ℕ) (mode : TimestampMode) (cal : List ℕ)
    (st p q : List ℕ) (chunks : List (List ℕ))
    (hL : 0 < frameLength mode mask)
    (hst : st.length < frameLength mode mask)
    (hp : p.length < frameLength mode mask)
    (hpq : (p ++ q).length = frameLength mode mask) :
    ingestAll (frameLength mode mask) (decode_sample mask cal mode) st chunks
        = drain (frameLength mode mask) (decode_sample mask cal mode)
            (st ++ chunks.flatten)
      ∧ ingestAll (frameLength mode mask) (decode_sample mask cal mode) [] [p, q]
        = ([], [decode_sample mask cal mode (p ++ q)])
      ∧ (drain (frameLength mode mask) (decode_sample mask cal mode)
            (st ++ chunks.flatten)).1
          = (st ++ chunks.flatten).drop
              ((drain (frameLength mode mask) (decode_sample mask cal mode)
                  (st ++ chunks.flatten)).2.length * frameLength mode mask)
      ∧ (drain (frameLength mode mask) (decode_sample mask cal mode)
            (st ++ chunks.flatten)).2.length * frameLength mode mask
          + (drain (frameLength mode mask) (decode_sample mask cal mode)
              (st ++ chunks.flatten)).1.length
          = (st ++ chunks.flatten).length
      ∧ (drain (frameLength mode mask) (decode_sample mask cal mode)
            (st ++ chunks.flatten)).1.length < frameLength mode mask := by
  obtain ⟨s1, s2, s3⟩ := drain_spec (decode_sample mask cal mode) hL
    (st ++ chunks.flatten).length (st ++ chunks.flatten) (le_refl _)
  refine ⟨ingestAll_join _ hL chunks st hst, ?_, s1, s2, s3⟩
  have h1 : ingest (frameLength mode mask) (decode_sample mask cal mode) [] p
      = (p, []) := by
    unfold ingest
    rw [List.nil_append]
    exact drain_short _ hp
  have h2 : ingest (frameLength mode mask) (decode_sample mask cal mode) p q
      = ([], [decode_sample mask cal mode (p ++ q)]) := by
    unfold ingest
    rw [drain_step _ hL (le_of_eq hpq.symm), ← hpq, List.take_length, List.drop_length,
      show drain ((p ++ q).length) (decode_sample mask cal mode) ([] : List ℕ)
          = ([], []) from drain_short _ (by simp only [List.length_nil]; omega)]
  simp [ingestAll, h1, h2]

/-- Witness for C2: mask 0x03, short timestamps (frame length 6), nonzero
calibration offsets, a carried-over partial frame and uneven chunks. -/
theorem C2_chunk_independence_witness :
    0 < frameLength TimestampMode.short 0x03
      ∧ ([9, 9] : List ℕ).length < frameLength TimestampMode.short 0x03
      ∧ ([1, 2, 3] : List ℕ).length < frameLength TimestampMode.short 0x03
      ∧ (([1, 2, 3] : List ℕ) ++ [4, 5, 6]).length = frameLength TimestampMode.short 0x03
      ∧ ingestAll (frameLength TimestampMode.short 0x03)
            (decode_sample 0x03 [7, 250] TimestampMode.short) [9, 9]
            [[1], [2, 3, 4, 5, 6, 7]]
          = drain (frameLength TimestampMode.short 0x03)
              (decode_sample 0x03 [7, 250] TimestampMode.short)
              ([9, 9] ++ ([[1], [2, 3, 4, 5, 6, 7]] : List (List ℕ)).flatten)
      ∧ ingestAll (frameLength TimestampMode.short 0x03)
            (decode_sample 0x03 [7, 250] TimestampMode.short) [] [[1, 2, 3], [4, 5, 6]]
          = ([], [decode_sample 0x03 [7, 250] TimestampMode.short ([1, 2, 3] ++ [4, 5, 6])]) :=
  ⟨by decide, by decide, by decide, by decide,
    (C2_chunk_independence 0x03 TimestampMode.short [7, 250] [9, 9] [1, 2, 3] [4, 5, 6]
        [[1], [2, 3, 4, 5, 6, 7]] (by decide) (by decide) (by decide) (by decide)).1,
    (C2_chunk_independence 0x03 TimestampMode.short [7, 250] [9, 9] [1, 2, 3] [4, 5, 6]
        [[1], [2, 3, 4, 5, 6, 7]] (by decide) (by decide) (by decide) (by decide)).2.1⟩

/-! ### Decoder totality lemmas -/

theorem decode_channel_isSome {rx : List ℕ} {pos : ℕ} (h : pos + 1 < rx.length)
    (off : ℕ) (scale : ℚ) : (decode_channel rx pos off scale).isSome = true := by
  unfold decode_channel read_word
  rw [List.get?_eq_get h, List.get?_eq_get (by omega : pos < rx.length)]
  rfl

theorem decode_rest_isSome (mask : ℕ) (cal rx : List ℕ) :
    ∀ (is : List ℕ) (pos : ℕ),
      pos + 2 * ((is.filter (fun i => mask.testBit i)).length) ≤ rx.length →
      (decode_rest mask cal rx is pos).isSome = true := by
  intro is
  induction is with
  | nil => intro pos h; rfl
  | cons i is ih =>
    intro pos h
    simp only [decode_rest]
    by_cases hb : mask.testBit i
    · rw [if_pos hb]
      rw [List.filter_cons_of_pos (by simpa using hb), List.length_cons] at h
      have hch : (decode_channel rx pos (cal.getD i 0) (channel_scale i)).isSome = true :=
        decode_channel_isSome (by omega) _ _
      obtain ⟨v, hv⟩ := Option.isSome_iff_exists.mp hch
      rw [hv]
      have hrest := ih (pos + 2) (by omega)
      obtain ⟨r, hr⟩ := Option.isSome_iff_exists.mp hrest
      rw [hr]
      rfl
    · rw [if_neg hb]
      rw [List.filter_cons_of_neg (by simpa using hb)] at h
      exact ih pos h

/-- C9: in the streaming configuration of `continuous_data_rx`
(mask 0xFF, full timestamps, 20-byte frames), the decode step is total:
every byte list of exactly the expected frame length decodes to some
sample, whatever its contents and whatever the calibration data — there
is no reachable error branch in steady state. -/
theorem C9_decode_total (cal rx : List ℕ) (h : rx.length = 20) :
    (decode_sample PMD_USB_MASK_ALL cal TimestampMode.full rx).isSome = true
      ∧ frameLength TimestampMode.full PMD_USB_MASK_ALL = 20 := by
  refine ⟨?_, by decide⟩
  have hts : device_timestamp_raw TimestampMode.full rx
      = some (rx.get ⟨3, by omega⟩ <<< 24 ||| rx.get ⟨2, by omega⟩ <<< 16
          ||| rx.get ⟨1, by omega⟩ <<< 8 ||| rx.get ⟨0, by omega⟩) := by
    simp only [device_timestamp_raw]
    rw [List.get?_eq_get (by omega : 3 < rx.length),
      List.get?_eq_get (by omega : 2 < rx.length),
      List.get?_eq_get (by omega : 1 < rx.length),
      List.get?_eq_get (by omega : 0 < rx.length)]
  have hch : (decode_channel rx (timestampBytes TimestampMode.full) (cal.getD 0 0)
      (channel_scale 0)).isSome = true :=
    decode_channel_isSome (by simp only [timestampBytes]; omega) _ _
  obtain ⟨v0, hv0⟩ := Option.isSome_iff_exists.mp hch
  have hrest : (decode_rest PMD_USB_MASK_ALL cal rx rest_channels
      (timestampBytes TimestampMode.full + 2)).isSome = true := by
    apply decode_rest_isSome
    have : (rest_channels.filter (fun i => Nat.testBit PMD_USB_MASK_ALL i)).length = 7 := by
      decide
    rw [this]
    simp only [timestampBytes]
    omega
  obtain ⟨r, hr⟩ := Option.isSome_iff_exists.mp hrest
  have hts2 : device_timestamp_sec TimestampMode.full rx
      = some (((rx.get ⟨3, by omega⟩ <<< 24 ||| rx.get ⟨2, by omega⟩ <<< 16
          ||| rx.get ⟨1, by omega⟩ <<< 8 ||| rx.get ⟨0, by omega⟩ : ℕ) : ℚ)
            / device_clock_res) := by
    unfold device_timestamp_sec
    rw [hts]
    rfl
  unfold decode_sample
  rw [hts2]
  unfold decode_frame
  rw [hv0, hr]
  rfl

/-- Witness for C9: an arbitrary 20-byte frame of 0xAB bytes with empty
calibration data decodes to a sample. -/
theorem C9_decode_total_witness :
    (List.replicate 20 0xAB : List ℕ).length = 20
      ∧ (decode_sample PMD_USB_MASK_ALL [] TimestampMode.full
            (List.replicate 20 0xAB)).isSome = true
      ∧ frameLength TimestampMode.full PMD_USB_MASK_ALL = 20 :=
  ⟨by decide, (C9_decode_total [] (List.replicate 20 0xAB) (by decide)).1,
    (C9_decode_total [] (List.replicate 20 0xAB) (by decide)).2⟩

/-- C3: evaluation of the decoder at mask 0xFE (bit 0 clear).  The source
decodes channel 0 (PCIE1 voltage) without any mask guard, so even with bit
0 clear the frame decode consumes 2 bytes for channel 0 and emits a value
for it: on a 20-byte frame the decoded channel indices are 0..7 (not 1..7)
and the final buffer position is 20, although the claimed per-frame channel
consumption is 2 × popcount(0xFE) = 14, i.e. end position 18.  Channels
1..7 are correctly guarded and visited in fixed order. -/
theorem C3_channel0_no_guard :
    (decode_frame 0xFE (List.replicate 8 0) (timestampBytes TimestampMode.full)
        (List.replicate 20 0)).map (fun r => (r.1.map Prod.fst, r.2))
      = some ([0, 1, 2, 3, 4, 5, 6, 7], 20)
      ∧ Nat.testBit 0xFE 0 = false
      ∧ timestampBytes TimestampMode.full + 2 * popcount 0xFE = 18 := by decide

/-- C4: the two hard-coded frame lengths of `main.py` match the spec
formula `timestampBytes(mode) + 2 × popcount(mask)` for their hard-coded
configurations (6 bytes for mask 0x03/Short, 16 bytes for mask 0xFF/None),
and the formula gives 20 for mask 0xFF/Full; but the frame-length
computation of `pmd-usb-logger.py` line 211 (`timestamp_bytes + 2 * sum(8)`),
the one cutting the accumulation buffer in the claim's cited code, raises
TypeError instead of producing 20. -/
theorem C4_frame_length_eval :
    chunk_num_bytes_single = frameLength TimestampMode.short 0x03
      ∧ frameLength TimestampMode.short 0x03 = 6
      ∧ chunk_num_bytes_allchan = frameLength TimestampMode.none 0xFF
      ∧ frameLength TimestampMode.none 0xFF = 16
      ∧ frameLength TimestampMode.full 0xFF = 20
      ∧ chunk_num_bytes_logger = Option.none := by decide

/-- C5 counterexample: the code's firmware threshold is 6, not 5, and no
version is rejected: firmware 5 selects the legacy structure (the claim
says extended), and firmware 99 selects the extended structure rather than
failing with UnsupportedFirmware. -/
theorem C5_firmware_threshold_counterexample :
    select_config 5 = ConfigVariant.legacy
      ∧ select_config 99 = ConfigVariant.extended
      ∧ ConfigVariant.legacy ≠ ConfigVariant.extended := by decide

/-- C5 amended: `read_calibration` selects the legacy config structure
exactly when the reported firmware version is < 6 and the extended
(gain-offset) structure exactly when it is ≥ 6; every reported version maps
to one of the two known structure sizes (26 and 34 bytes) — there is no
UnsupportedFirmware failure.  Firmware 4 selects legacy, firmware 6
extended, firmware 99 extended. -/
theorem C5_firmware_threshold_amended :
    (∀ fw : ℕ, (select_config fw = ConfigVariant.legacy ↔ fw < 6))
      ∧ (∀ fw : ℕ, (select_config fw = ConfigVariant.extended ↔ 6 ≤ fw))
      ∧ select_config 4 = ConfigVariant.legacy
      ∧ select_config 6 = ConfigVariant.extended
      ∧ select_config 99 = ConfigVariant.extended
      ∧ config_read_size 4 = sizeof_ConfigStruct
      ∧ config_read_size 99 = sizeof_ConfigStructV5
      ∧ sizeof_ConfigStruct = 26
      ∧ sizeof_ConfigStructV5 = 34 := by
  refine ⟨?_, ?_, by decide, by decide, by decide, by decide, by decide,
    by decide, by decide⟩
  · intro fw
    unfold select_config
    by_cases hlt : fw < 6
    · simp [hlt]
    · simp [hlt]
  · intro fw
    unfold select_config
    by_cases hlt : fw < 6
    all_goals simp [hlt]
    all_goals omega

/-- C6: for every timestamp mode and every frame of in-range bytes long
enough to hold the timestamp field, the device timestamp raw value equals
the little-endian unsigned integer of the leading `timestampBytes(mode)`
bytes (0 for mode none), the value in seconds is that integer divided by
3,000,000, and raw ticks 3,000,000 under Full mode yield exactly 1. -/
theorem C6_device_timestamp (mode : TimestampMode) (frame : List ℕ)
    (hb : ∀ b ∈ frame, b < 256) (hlen : timestampBytes mode ≤ frame.length) :
    device_timestamp_raw mode frame
        = some (Nat.ofDigits 256 (frame.take (timestampBytes mode)))
      ∧ device_timestamp_sec mode frame
        = some (((Nat.ofDigits 256 (frame.take (timestampBytes mode)) : ℕ) : ℚ) / 3000000)
      ∧ device_timestamp_sec TimestampMode.full [0xC0, 0xC6, 0x2D, 0x00] = some 1 := by
  have hmain : device_timestamp_raw mode frame
      = some (Nat.ofDigits 256 (frame.take (timestampBytes mode))) := by
    cases mode with
    | none => simp [device_timestamp_raw, timestampBytes, Nat.ofDigits]
    | short =>
      cases frame with
      | nil => simp [timestampBytes] at hlen
      | cons b0 t =>
        cases t with
        | nil => simp [timestampBytes] at hlen
        | cons b1 rest =>
          have h0 : b0 < 256 := hb b0 (by simp)
          have hg : device_timestamp_raw TimestampMode.short (b0 :: b1 :: rest)
              = some (b1 <<< 8 ||| b0) := rfl
          have htake : (b0 :: b1 :: rest).take (timestampBytes TimestampMode.short)
              = [b0, b1] := rfl
          rw [hg, htake]
          have hv : b1 <<< 8 ||| b0 = Nat.ofDigits 256 [b0, b1] := by
            rw [le2_bytes b0 b1 h0]
            simp [Nat.ofDigits_cons, Nat.ofDigits_nil]
            omega
          rw [hv]
    | full =>
      cases frame with
      | nil => simp [timestampBytes] at hlen
      | cons b0 t =>
        cases t with
        | nil => simp [timestampBytes] at hlen
        | cons b1 t2 =>
          cases t2 with
          | nil => simp [timestampBytes] at hlen
          | cons b2 t3 =>
            cases t3 with
            | nil => simp [timestampBytes] at hlen
            | cons b3 rest =>
              have h0 : b0 < 256 := hb b0 (by simp)
              have h1 : b1 < 256 := hb b1 (by simp)
              have h2 : b2 < 256 := hb b2 (by simp)
              have hg : device_timestamp_raw TimestampMode.full
                  (b0 :: b1 :: b2 :: b3 :: rest)
                  = some (b3 <<< 24 ||| b2 <<< 16 ||| b1 <<< 8 ||| b0) := rfl
              have htake : (b0 :: b1 :: b2 :: b3 :: rest).take
                  (timestampBytes TimestampMode.full) = [b0, b1, b2, b3] := rfl
              rw [hg, htake]
              have hv : b3 <<< 24 ||| b2 <<< 16 ||| b1 <<< 8 ||| b0
                  = Nat.ofDigits 256 [b0, b1, b2, b3] := by
                rw [le4_bytes b0 b1 b2 b3 h0 h1 h2]
                simp [Nat.ofDigits_cons, Nat.ofDigits_nil]
                ring
              rw [hv]
  refine ⟨hmain, ?_, ?_⟩
  · unfold device_timestamp_sec
    rw [hmain]
    rfl
  · unfold device_timestamp_sec
    rw [show device_timestamp_raw TimestampMode.full [0xC0, 0xC6, 0x2D, 0x00]
        = some 3000000 by decide]
    have h1 : (3000000 : ℚ) / device_clock_res = 1 := by
      unfold device_clock_res
      norm_num
    simp [h1]

/-- Witness for C6: the full-mode frame whose leading 4 bytes encode
3,000,000 ticks little-endian. -/
theorem C6_device_timestamp_witness :
    (∀ b ∈ ([0xC0, 0xC6, 0x2D, 0x00] : List ℕ), b < 256)
      ∧ timestampBytes TimestampMode.full ≤ ([0xC0, 0xC6, 0x2D, 0x00] : List ℕ).length
      ∧ device_timestamp_raw TimestampMode.full [0xC0, 0xC6, 0x2D, 0x00]
          = some (Nat.ofDigits 256 (([0xC0, 0xC6, 0x2D, 0x00] : List ℕ).take
              (timestampBytes TimestampMode.full)))
      ∧ device_timestamp_sec TimestampMode.full [0xC0, 0xC6, 0x2D, 0x00] = some 1 :=
  ⟨by decide, by decide,
    (C6_device_timestamp TimestampMode.full [0xC0, 0xC6, 0x2D, 0x00]
      (by decide) (by decide)).1,
    (C6_device_timestamp TimestampMode.full [0xC0, 0xC6, 0x2D, 0x00]
      (by decide) (by decide)).2.2⟩

/-! ### Baud-probing lemmas -/

theorem find_baud_none (ok : ℕ → Bool) :
    ∀ l : List ℕ, (find_baud ok l).2 = Option.none →
      (find_baud ok l).1 = l ∧ ∀ x ∈ l, ok x = false := by
  intro l
  induction l with
  | nil => intro _; exact ⟨rfl, by simp⟩
  | cons r rs ih =>
    intro h
    simp only [find_baud] at h ⊢
    by_cases hok : ok r
    · rw [if_pos hok] at h
      exact absurd h (by simp)
    · rw [if_neg hok] at h ⊢
      obtain ⟨h1, h2⟩ := ih h
      refine ⟨by rw [h1], ?_⟩
      intro x hx
      rcases List.mem_cons.mp hx with hx | hx
      · subst hx
        simpa using hok
      · exact h2 x hx

theorem find_baud_some (ok : ℕ → Bool) :
    ∀ (l : List ℕ) (r : ℕ), (find_baud ok l).2 = some r →
      ok r = true ∧ r ∈ l
        ∧ (find_baud ok l).1 = l.takeWhile (fun x => !ok x) ++ [r]
        ∧ List.find? ok l = some r := by
  intro l
  induction l with
  | nil => intro r h; exact absurd h (by simp [find_baud])
  | cons a rs ih =>
    intro r h
    simp only [find_baud] at h ⊢
    by_cases hok : ok a
    · rw [if_pos hok] at h
      simp only [Option.some.injEq] at h
      subst h
      refine ⟨hok, by simp, ?_, ?_⟩
      · rw [if_pos hok, List.takeWhile_cons_of_neg (by simpa using hok)]
        rfl
      · rw [List.find?_cons_of_pos _ hok]
    · rw [if_neg hok] at h
      obtain ⟨h1, h2, h3, h4⟩ := ih r h
      refine ⟨h1, List.mem_cons_of_mem a h2, ?_, ?_⟩
      · rw [if_neg hok, List.takeWhile_cons_of_pos (by simpa using hok)]
        simp [h3]
      · rw [List.find?_cons_of_neg _ hok]
        exact h4

theorem find_baud_lower_bound (ok : ℕ → Bool) :
    ∀ l : List ℕ, l.Pairwise (· > ·) →
      ∀ r : ℕ, (find_baud ok l).2 = some r →
        ∀ x ∈ (find_baud ok l).1, r ≤ x := by
  intro l
  induction l with
  | nil => intro _ r h; exact absurd h (by simp [find_baud])
  | cons a rs ih =>
    intro hp r h x hx
    simp only [find_baud] at h hx
    by_cases hok : ok a
    · rw [if_pos hok] at h hx
      simp only [Option.some.injEq] at h
      subst h
      simp only [List.mem_singleton] at hx
      subst hx
      exact le_refl _
    · rw [if_neg hok] at h hx
      rcases List.mem_cons.mp hx with hx | hx
      · subst hx
        have hrmem : r ∈ rs := (find_baud_some ok rs r h).2.1
        have := (List.pairwise_cons.mp hp).1 r hrmem
        omega
      · exact ih (List.pairwise_cons.mp hp).2 r h x hx

theorem run_session_fields (ok : ℕ → Bool) :
    (run_session ok).selected = (find_baud ok probe_order).2
      ∧ (run_session ok).attempts = (find_baud ok probe_order).1 := by
  unfold run_session
  cases h : (find_baud ok probe_order).2 with
  | none => simp
  | some r => simp

/-- C7: the `__main__` probing loop tries the supported link speeds in
strictly decreasing order; when identification succeeds at some speed, that
speed is the first success in probe order, it becomes the session's
operating speed, and every attempted speed is ≥ it (no lower speed is ever
attempted after success, as the loop breaks); when no speed succeeds, every
speed was attempted, all failed, and the session terminates without reading
calibration and without streaming. -/
theorem C7_session_probe (ok okN : ℕ → Bool) (r : ℕ)
    (hsel : (run_session ok).selected = some r)
    (hfail : (run_session okN).selected = Option.none) :
    probe_order = [2000000, 1500000, 921600, 460800, 230400, 115200]
      ∧ List.Pairwise (· > ·) probe_order
      ∧ ok r = true
      ∧ (run_session ok).selected = List.find? ok probe_order
      ∧ (run_session ok).attempts = probe_order.takeWhile (fun x => !ok x) ++ [r]
      ∧ (∀ x ∈ (run_session ok).attempts, r ≤ x)
      ∧ (run_session okN).attempts = probe_order
      ∧ (∀ x ∈ probe_order, okN x = false)
      ∧ (run_session okN).calibrated = false
      ∧ (run_session okN).streaming = false := by
  obtain ⟨hsel1, hatt1⟩ := run_session_fields ok
  obtain ⟨hsel2, hatt2⟩ := run_session_fields okN
  have hs : (find_baud ok probe_order).2 = some r := by rw [← hsel1]; exact hsel
  have hn : (find_baud okN probe_order).2 = Option.none := by rw [← hsel2]; exact hfail
  obtain ⟨hok, _, htw, hfind⟩ := find_baud_some ok probe_order r hs
  obtain ⟨hall, hfalse⟩ := find_baud_none okN probe_order hn
  have hpw : List.Pairwise (· > ·) probe_order := by decide
  refine ⟨by decide, hpw, hok, ?_, ?_, ?_, ?_, hfalse, ?_, ?_⟩
  · rw [hsel1, hfind, hs]
  · rw [hatt1, htw]
  · intro x hx
    rw [hatt1] at hx
    exact find_baud_lower_bound ok probe_order hpw r hs x hx
  · rw [hatt2, hall]
  · unfold run_session
    rw [hn]
  · unfold run_session
    rw [hn]

/-- Witness for C7: a transport answering only at 460800 baud: the session
selects 460800 after attempting only the three higher rates, and a
transport answering nowhere: the session fails without calibrating or
streaming. -/
theorem C7_session_probe_witness :
    (run_session (fun n => n == 460800)).selected = some 460800
      ∧ (run_session (fun _ => false)).selected = Option.none
      ∧ (run_session (fun n => n == 460800)).attempts
          = probe_order.takeWhile (fun x => !(x == 460800)) ++ [460800]
      ∧ (∀ x ∈ (run_session (fun n => n == 460800)).attempts, 460800 ≤ x)
      ∧ (run_session (fun _ => false)).calibrated = false
      ∧ (run_session (fun _ => false)).streaming = false :=
  ⟨by decide, by decide,
    (C7_session_probe (fun n => n == 460800) (fun _ => false) 460800
        (by decide) (by decide)).2.2.2.2.1,
    (C7_session_probe (fun n => n == 460800) (fun _ => false) 460800
        (by decide) (by decide)).2.2.2.2.2.1,
    (C7_session_probe (fun n => n == 460800) (fun _ => false) 460800
        (by decide) (by decide)).2.2.2.2.2.2.2.2.1,
    (C7_session_probe (fun n => n == 460800) (fun _ => false) 460800
        (by decide) (by decide)).2.2.2.2.2.2.2.2.2⟩

/-- C8 counterexample: `check_connection` requests 18 bytes but the fixed
greeting string `b"ElmorLabs PMD-USB"` it compares against has 17 bytes,
not 18 as claimed. -/
theorem C8_greeting_length_counterexample :
    welcome_read_len = 18 ∧ PMD_USB_RESPONSE.length = 17 ∧ (17 : ℕ) ≠ 18 := by decide

/-- C8 amended: the welcome exchange issues opcode 0x00 and requests an
18-byte read, and identification at the current speed succeeds only when
the bytes actually read equal the fixed greeting string — which is the
17-byte `b"ElmorLabs PMD-USB"`. -/
theorem C8_welcome_exchange (w s : List ℕ) (h : check_connection w s = true) :
    PMD_USB_WELCOME = 0x00
      ∧ welcome_read_len = 18
      ∧ w = PMD_USB_RESPONSE
      ∧ PMD_USB_RESPONSE.length = 17 := by
  refine ⟨rfl, rfl, ?_, by decide⟩
  unfold check_connection at h
  by_cases hw : w = PMD_USB_RESPONSE
  · exact hw
  · rw [if_pos hw] at h
    exact absurd h (by simp)

/-- Witness for C8: reading back exactly the greeting (and a 48-byte sensor
response) makes `check_connection` succeed. -/
theorem C8_welcome_exchange_witness :
    check_connection PMD_USB_RESPONSE (List.replicate 48 0) = true
      ∧ (PMD_USB_WELCOME = 0x00
          ∧ welcome_read_len = 18
          ∧ PMD_USB_RESPONSE = PMD_USB_RESPONSE
          ∧ PMD_USB_RESPONSE.length = 17) :=
  ⟨by decide, C8_welcome_exchange PMD_USB_RESPONSE (List.replicate 48 0) (by decide)⟩

/-- C10: `check_connection` returns true only if, after the welcome bytes
match, the read-sensors exchange (opcode 0x02, an up-to-48-byte read)
returns exactly `sizeof(SensorStruct)` = 48 bytes; any other sensor
response length makes it return false, so the probing loop moves on to the
next candidate speed even when the greeting matched. -/
theorem C10_sensor_length_check (w s s2 : List ℕ) (h : check_connection w s = true)
    (h2 : s2.length ≠ 48) :
    sizeof_SensorStruct = 48
      ∧ PMD_USB_READ_SENSORS = 0x02
      ∧ sensor_read_len = 48
      ∧ s.length = 48
      ∧ check_connection w s2 = false := by
  refine ⟨by decide, rfl, rfl, ?_, ?_⟩
  · unfold check_connection at h
    by_cases hw : w ≠ PMD_USB_RESPONSE
    · rw [if_pos hw] at h
      exact absurd h (by simp)
    · rw [if_neg hw] at h
      by_cases hs : s.length ≠ sizeof_SensorStruct
      · rw [if_pos hs] at h
        exact absurd h (by simp)
      · have hlen : s.length = sizeof_SensorStruct := not_not.mp hs
        exact hlen.trans (by decide)
  · unfold check_connection
    by_cases hw : w ≠ PMD_USB_RESPONSE
    · rw [if_pos hw]
    · rw [if_neg hw,
        if_pos (show s2.length ≠ sizeof_SensorStruct by
          rw [show sizeof_SensorStruct = 48 from by decide]; exact h2)]

/-- Witness for C10: a 48-byte sensor response passes the check; an empty
sensor response fails it even though the greeting matches. -/
theorem C10_sensor_length_check_witness :
    check_connection PMD_USB_RESPONSE (List.replicate 48 0) = true
      ∧ ([] : List ℕ).length ≠ 48
      ∧ (sizeof_SensorStruct = 48
          ∧ PMD_USB_READ_SENSORS = 0x02
          ∧ sensor_read_len = 48
          ∧ (List.replicate 48 (0 : ℕ)).length = 48
          ∧ check_connection PMD_USB_RESPONSE [] = false) :=
  ⟨by decide, by decide,
    C10_sensor_length_check PMD_USB_RESPONSE (List.replicate 48 0) []
      (by decide) (by decide)⟩

end PMDUSB
